import Mathlib

/-!
Verification of the ApexLive replay/interpolation engine.

Shallow embedding of the TypeScript source. JavaScript numbers are
modelled as exact rationals (`ℚ`); timestamps are epoch milliseconds.
Over `ℚ` the checks `Number.isFinite` are identically true and the
values `NaN` and `Infinity` do not arise, which is noted at each
definition where the source guards against them. ISO date strings are
modelled by their millisecond value, since the source always converts
them with `new Date(s).getTime()` before comparing.
-/

namespace ApexLive

/-- One car-sensor sample (interface `TelemetryData`, src/types.ts).
The `date` field is the ISO timestamp converted to epoch ms. -/
structure TelemetryData where
  date : ℚ
  speed : ℚ
  throttle : ℚ
  brake : ℚ
  rpm : ℚ
  gear : ℚ
  drs : ℚ
  deriving Repr, DecidableEq, Inhabited

/-- Output packet of the dashboard interpolator (interface `DisplayData`,
src/components/TelemetryDashboard.tsx): a `TelemetryData` extended with
the derived `gForce`. -/
structure DisplayData where
  date : ℚ
  speed : ℚ
  throttle : ℚ
  brake : ℚ
  rpm : ℚ
  gear : ℚ
  drs : ℚ
  gForce : ℚ
  deriving Repr, DecidableEq, Inhabited

/-- JavaScript `Math.round`: round half toward positive infinity. -/
def jsRound (q : ℚ) : ℤ := ⌊q + 1/2⌋

/-- Linear interpolation helper `lerp` (TelemetryDashboard.tsx line 19
and LiveCircuit.tsx line 14). The dashboard version coerces non-finite
inputs to 0 via `Number.isFinite`; over `ℚ` every value is finite, so
both versions reduce to the same function. -/
def lerp (s e factor : ℚ) : ℚ := s + (e - s) * factor

/-- Index of the last sample with `date ≤ timeMs`, or `none` when every
sample is in the future. Models the backward scan of
`getInterpolatedData` (TelemetryDashboard.tsx lines 32 to 39): iterating
from the end, the first index found with `date ≤ timeMs` is the greatest
such index. -/
def lastLE : List TelemetryData → ℚ → Option ℕ
  | [], _ => none
  | p :: rest, t =>
    match lastLE rest t with
    | some i => some (i + 1)
    | none => if p.date ≤ t then some 0 else none

/-- The spread `{ ...p, gForce: 0 }` used on every early-return path of
`getInterpolatedData` (lines 42, 43 and 52): the sample is returned with
its own fields, its own `date`, and `gForce` 0. -/
def edgeDisplay (p : TelemetryData) : DisplayData :=
  { date := p.date, speed := p.speed, throttle := p.throttle, brake := p.brake,
    rpm := p.rpm, gear := p.gear, drs := p.drs, gForce := 0 }

/-- Body of `getInterpolatedData` from the bracketing pair `(p1, p2)`
onward (TelemetryDashboard.tsx lines 45 to 89). `rand` is the value
drawn by `Math.random()` on the high-RPM vibration path (line 76),
passed explicitly so the use of randomness is visible in the model.
The final `isNaN(gForce) ? 0 : gForce` filter is identically the
identity over `ℚ`, where no NaN exists; the guarded division is
modelled by the same `dt > 0` test the source uses. -/
def interpCore (p1 p2 : TelemetryData) (timeMs rand : ℚ) : DisplayData :=
  let t1 := p1.date
  let t2 := p2.date
  if t2 = t1 then edgeDisplay p1
  else
    let factor := (timeMs - t1) / (t2 - t1)
    let speed := lerp p1.speed p2.speed factor
    let rpm := lerp p1.rpm p2.rpm factor
    let throttle := lerp p1.throttle p2.throttle factor
    let brake := lerp p1.brake p2.brake factor
    let v1 := p1.speed / (36/10)
    let v2 := p2.speed / (36/10)
    let dt := (t2 - t1) / 1000
    let accel := if dt > 0 then (v2 - v1) / dt else 0
    let gForce := accel / (981/100)
    let displayRpm := if throttle > 80 ∨ rpm > 10000 then rpm + (rand - 1/2) * 50 else rpm
    { date := timeMs,
      speed := (jsRound speed : ℚ),
      rpm := (jsRound displayRpm : ℚ),
      throttle := (jsRound throttle : ℚ),
      brake := (jsRound brake : ℚ),
      gear := p1.gear,
      drs := p1.drs,
      gForce := gForce }

/-- `getInterpolatedData` (TelemetryDashboard.tsx lines 26 to 90).
Returns `none` for an empty buffer; returns the first sample when all
data is in the future; returns the sample at the scan index when it is
the last one; otherwise interpolates between the bracketing pair. -/
def getInterpolatedData (data : List TelemetryData) (timeMs rand : ℚ) : Option DisplayData :=
  if data.length = 0 then none
  else
    match lastLE data timeMs with
    | none => some (edgeDisplay (data.getD 0 default))
    | some idx =>
      if idx = data.length - 1 then some (edgeDisplay (data.getD idx default))
      else some (interpCore (data.getD idx default) (data.getD (idx + 1) default) timeMs rand)

/-- One location sample of the per-driver location buffer
(LiveCircuit.tsx line 36): `{ x, y, date (ms) }`. -/
structure LocSample where
  x : ℚ
  y : ℚ
  date : ℚ
  deriving Repr, DecidableEq, Inhabited

/-- One entry of the followed-driver telemetry buffer
(LiveCircuit.tsx line 40). -/
structure CarSample where
  date : ℚ
  speed : ℚ
  gear : ℚ
  throttle : ℚ
  brake : ℚ
  rpm : ℚ
  deriving Repr, DecidableEq, Inhabited

/-- Value passed to `setActiveDriverTelemetry` in the animation loop
(LiveCircuit.tsx lines 389 to 395). -/
structure ActiveTelemetry where
  speed : ℚ
  gear : ℚ
  throttle : ℚ
  brake : ℚ
  rpm : ℚ
  deriving Repr, DecidableEq, Inhabited

/-- Forward scan for the bracketing index: the first `i` with
`points[i].date ≤ t` and `points[i+1].date > t`, as in the loops at
LiveCircuit.tsx lines 316 to 321 and 375 to 380. Generic in the sample
type via the date projection `d`. -/
def bracketScan {α : Type} (d : α → ℚ) : List α → ℚ → Option ℕ
  | p :: q :: rest, t =>
    if d p ≤ t ∧ d q > t then some 0
    else (bracketScan d (q :: rest) t).map (· + 1)
  | _, _ => none

/-- The `(x, y)` computed for one driver by the location branch of the
animation loop (LiveCircuit.tsx lines 323 to 338): both coordinates
start at 0 and are assigned only in the bracketed branch or in the
out-of-range fallbacks. -/
def animateLocation (points : List LocSample) (targetTime : ℚ) : ℚ × ℚ :=
  match bracketScan (fun p => p.date) points targetTime with
  | some idx =>
    let p1 := points.getD idx default
    let p2 := points.getD (idx + 1) default
    let total := p2.date - p1.date
    let elapsed := targetTime - p1.date
    let factor := max 0 (min 1 (elapsed / total))
    (lerp p1.x p2.x factor, lerp p1.y p2.y factor)
  | none =>
    if (points.getD 0 default).date > targetTime then
      ((points.getD 0 default).x, (points.getD 0 default).y)
    else if (points.getD (points.length - 1) default).date < targetTime then
      ((points.getD (points.length - 1) default).x, (points.getD (points.length - 1) default).y)
    else (0, 0)

/-- The coordinate the animation loop writes into `newCoords` for one
driver, if any (LiveCircuit.tsx lines 312 to 343): buffers with fewer
than two points are skipped, and a computed coordinate is emitted only
when `x !== 0 && y !== 0`. -/
def emitLocation (points : List LocSample) (targetTime : ℚ) : Option (ℚ × ℚ) :=
  if points.length < 2 then none
  else
    let c := animateLocation points targetTime
    if c.1 ≠ 0 ∧ c.2 ≠ 0 then some c else none

/-- The telemetry branch of the animation loop (LiveCircuit.tsx lines
372 to 396): requires more than one buffered sample, updates the display
only in the bracketed case, rounds the interpolated continuous fields
and passes `gear` through from the left bracket sample. -/
def animateTelemetry (tPoints : List CarSample) (targetTime : ℚ) : Option ActiveTelemetry :=
  if tPoints.length ≤ 1 then none
  else
    match bracketScan (fun p => p.date) tPoints targetTime with
    | some idx =>
      let p1 := tPoints.getD idx default
      let p2 := tPoints.getD (idx + 1) default
      let total := p2.date - p1.date
      let elapsed := targetTime - p1.date
      let factor := max 0 (min 1 (elapsed / total))
      some { speed := (jsRound (lerp p1.speed p2.speed factor) : ℚ),
             rpm := (jsRound (lerp p1.rpm p2.rpm factor) : ℚ),
             throttle := (jsRound (lerp p1.throttle p2.throttle factor) : ℚ),
             brake := (jsRound (lerp p1.brake p2.brake factor) : ℚ),
             gear := p1.gear }
    | none => none

/-- Dedup insert of one location packet (LiveCircuit.tsx lines 210 to
218): the sample is appended only when no buffered sample has the same
timestamp, so the first-seen sample for a timestamp is kept. -/
def insertLoc (buf : List LocSample) (s : LocSample) : List LocSample :=
  if buf.any (fun p => p.date = s.date) then buf else buf ++ [s]

/-- Batch insert of a fetch response (`data.forEach`, LiveCircuit.tsx
lines 206 to 219). -/
def insertBatch (buf incoming : List LocSample) : List LocSample :=
  incoming.foldl insertLoc buf

/-- JavaScript `array.sort((a, b) => a.date - b.date)` (LiveCircuit.tsx
line 223): an ascending stable sort by date. Modelled by insertion sort;
because the buffer never holds two samples with the same date, the
ascending reordering is unique and the choice of sorting algorithm is
unobservable. -/
def sortByDate (buf : List LocSample) : List LocSample :=
  List.insertionSort (fun a b => a.date ≤ b.date) buf

/-- Trailing-window eviction (LiveCircuit.tsx line 225 for locations,
line 282 for telemetry): keeps exactly the samples with
`date > cutoff`. -/
def evictBuffer (buf : List LocSample) (cutoff : ℚ) : List LocSample :=
  buf.filter (fun p => p.date > cutoff)

/-- One full fetch-insert-normalize-evict cycle of the location buffer
for one driver (`fetchBatch`, LiveCircuit.tsx lines 191 to 231): dedup
insert of the batch, sort ascending by date, then drop samples at or
before `nowMs - 2000`. -/
def fetchCycle (buf incoming : List LocSample) (nowMs : ℚ) : List LocSample :=
  evictBuffer (sortByDate (insertBatch buf incoming)) (nowMs - 2000)

/-- Observable playback-control state of `App`
(src/App.tsx): the `isSessionLive` and `isAtLiveHead` flags and the
playback rate multiplier. -/
structure AppLiveState where
  isSessionLive : Bool
  isAtLiveHead : Bool
  playbackSpeed : ℚ
  deriving Repr, DecidableEq, Inhabited

/-- The live-status effect (src/App.tsx lines 100 to 121), which runs
after every change of session, replay time or playback speed: computes
`isSessionLive` (wall clock within the session window plus a two hour
grace), `isAtLiveHead` (replay time within 60 s of wall clock), and
forces the playback speed to 1 when both hold. All times are epoch
milliseconds. -/
def checkLiveStatus (nowMs dateStartMs dateEndMs replayMs speed : ℚ) : AppLiveState :=
  let isLive : Bool := decide (dateStartMs ≤ nowMs ∧ nowMs ≤ dateEndMs + 7200000)
  let atHead : Bool := decide (|nowMs - replayMs| < 60000)
  { isSessionLive := isLive,
    isAtLiveHead := atHead,
    playbackSpeed := if isLive && atHead && decide (speed ≠ 1) then 1 else speed }

/-- A click on a playback-speed button (src/App.tsx lines 710 to 726):
the container carrying the speed buttons has `pointer-events-none` while
`isAtLiveHead` is set, so the click reaches `setPlaybackSpeed` only when
the clock is not at the live head. -/
def setRateClick (n : ℚ) (s : AppLiveState) : AppLiveState :=
  if s.isAtLiveHead then s else { s with playbackSpeed := n }

/-- Outcome of one HTTP request in the model of `fetchAPI`. -/
inductive FetchOutcome (α : Type) where
  | ok (data : List α)
  | rateLimited
  | httpError
  | aborted
  deriving Repr, DecidableEq

/-- Observable result of a `fetchAPI` call chain: the resolved value
(always a list, never an exception), the number of HTTP requests made,
whether any error was logged with `console.error`, and the backoff
waits performed before retries. -/
structure FetchResult (α : Type) where
  data : List α
  requests : ℕ
  errorLogged : Bool
  waits : List ℚ
  deriving Repr, DecidableEq

/-- The retry helper `fetchAPI` (src service module, lines 12 to 54).
`env k` is the outcome of the k-th HTTP request of the chain and
`jitter k` the value of `Math.random() * 500` drawn before the k-th
retry, passed explicitly. On status 429 with retries left it waits
`backoff + jitter` and recurses with `retries - 1` and `backoff * 1.5`;
with no retries left the thrown rate-limit error is caught by the same
invocation, logged, and converted to an empty array. Any other HTTP
error is caught and logged, resolving to an empty array; an abort
resolves to an empty array without a `console.error`. The source has
one body whose 429 branch tests `retries > 0`; the two patterns below
split exactly that test so the recursion is structural on the bounded
retry count, and the branches not involving `retries` are identical in
both patterns. -/
def fetchAPI {α : Type} (env : ℕ → FetchOutcome α) (jitter : ℕ → ℚ) :
    (retries k : ℕ) → (backoff : ℚ) → FetchResult α
  | 0, k, _ =>
    match env k with
    | .ok d => ⟨d, 1, false, []⟩
    | .aborted => ⟨[], 1, false, []⟩
    | .httpError => ⟨[], 1, true, []⟩
    | .rateLimited => ⟨[], 1, true, []⟩
  | r + 1, k, backoff =>
    match env k with
    | .ok d => ⟨d, 1, false, []⟩
    | .aborted => ⟨[], 1, false, []⟩
    | .httpError => ⟨[], 1, true, []⟩
    | .rateLimited =>
      let rest := fetchAPI env jitter r (k + 1) (backoff * (3/2))
      ⟨rest.data, rest.requests + 1, rest.errorLogged, (backoff + jitter k) :: rest.waits⟩

/-- A display packet with its `rpm` field blanked, used to compare two
interpolator outputs on every field other than `rpm`. -/
def maskRpm (dp : DisplayData) : DisplayData := { dp with rpm := 0 }

/-! ### Helper lemmas on sorted buffers and the two bracket scans -/

section SortedHelpers

variable {α : Type} [Inhabited α] (d : α → ℚ)

/-- A chain of non-decreasing dates gives monotone dates at indices. -/
theorem getD_mono_of_chainLe {l : List α} (hs : List.Chain' (fun a b => d a ≤ d b) l)
    {i j : ℕ} (hij : i ≤ j) (hj : j < l.length) :
    d (l.getD i default) ≤ d (l.getD j default) := by
  haveI : IsTrans α (fun a b => d a ≤ d b) := ⟨fun _ _ _ hab hbc => le_trans hab hbc⟩
  rcases lt_or_eq_of_le hij with hlt | rfl
  · have hp := List.chain'_iff_pairwise.mp hs
    have hi : i < l.length := lt_trans hlt hj
    rw [List.getD_eq_getElem l default hi, List.getD_eq_getElem l default hj]
    exact List.pairwise_iff_getElem.mp hp i j hi hj hlt
  · exact le_refl _

/-- Every element of a sorted list is at most any upper bound of the last
element. -/
theorem all_le_of_chainLe {l : List α} (hs : List.Chain' (fun a b => d a ≤ d b) l)
    {t : ℚ} (h : d (l.getD (l.length - 1) default) ≤ t) : ∀ p ∈ l, d p ≤ t := by
  intro p hp
  rcases List.mem_iff_getElem.mp hp with ⟨j, hj, rfl⟩
  have hj1 : j ≤ l.length - 1 := by omega
  have := getD_mono_of_chainLe d hs hj1 (by omega)
  rw [List.getD_eq_getElem l default hj] at this
  exact le_trans this h

/-- Every element of a sorted list is above any strict lower bound of the
first element. -/
theorem all_gt_of_chainLe {l : List α} (hs : List.Chain' (fun a b => d a ≤ d b) l)
    {t : ℚ} (h : t < d (l.getD 0 default)) : ∀ p ∈ l, t < d p := by
  intro p hp
  rcases List.mem_iff_getElem.mp hp with ⟨j, hj, rfl⟩
  have := getD_mono_of_chainLe d hs (Nat.zero_le j) hj
  rw [List.getD_eq_getElem l default hj] at this
  exact lt_of_lt_of_le h this

/-- In a sorted list, every element from index `i` on is above any strict
lower bound of the element at `i`. -/
theorem drop_gt_of_chainLe {l : List α} (hs : List.Chain' (fun a b => d a ≤ d b) l)
    {t : ℚ} {i : ℕ} (hi : i < l.length) (h : t < d (l.getD i default)) :
    ∀ p ∈ l.drop i, t < d p := by
  intro p hp
  rcases List.mem_iff_getElem.mp hp with ⟨j, hj, rfl⟩
  rw [List.getElem_drop]
  have hij : i + j < l.length := by
    have := hj
    simp only [List.length_drop] at this
    omega
  have hmono := getD_mono_of_chainLe d hs (Nat.le_add_right i j) hij
  rw [List.getD_eq_getElem l default hij] at hmono
  exact lt_of_lt_of_le h hmono

omit [Inhabited α] in
/-- The forward scan finds nothing when every date is at most the target
(the target is at or past the final sample). -/
theorem bracketScan_eq_none_of_all_le {l : List α} {t : ℚ}
    (h : ∀ p ∈ l, d p ≤ t) : bracketScan d l t = none := by
  induction l with
  | nil => rfl
  | cons p rest ih =>
    cases rest with
    | nil => rfl
    | cons q rest2 =>
      have hq : d q ≤ t := h q (by simp)
      have : ¬(d p ≤ t ∧ d q > t) := by
        rintro ⟨-, hgt⟩; exact absurd hq (not_le.mpr hgt)
      rw [bracketScan, if_neg this, ih (fun x hx => h x (List.mem_cons_of_mem p hx))]
      rfl

omit [Inhabited α] in
/-- The forward scan finds nothing when every date is above the target
(the target precedes the first sample). -/
theorem bracketScan_eq_none_of_all_gt {l : List α} {t : ℚ}
    (h : ∀ p ∈ l, t < d p) : bracketScan d l t = none := by
  induction l with
  | nil => rfl
  | cons p rest ih =>
    cases rest with
    | nil => rfl
    | cons q rest2 =>
      have hp : t < d p := h p (by simp)
      have : ¬(d p ≤ t ∧ d q > t) := by
        rintro ⟨hle, -⟩; exact absurd hp (not_lt.mpr hle)
      rw [bracketScan, if_neg this, ih (fun x hx => h x (List.mem_cons_of_mem p hx))]
      rfl

/-- On a sorted buffer the forward scan returns exactly the bracketing
index. -/
theorem bracketScan_eq_some_of_bracket {l : List α} {t : ℚ} {i : ℕ}
    (hs : List.Chain' (fun a b => d a ≤ d b) l) (hi : i + 1 < l.length)
    (h1 : d (l.getD i default) ≤ t) (h2 : t < d (l.getD (i + 1) default)) :
    bracketScan d l t = some i := by
  induction l generalizing i with
  | nil => simp at hi
  | cons p rest ih =>
    cases rest with
    | nil => simp only [List.length_cons, List.length_nil] at hi; omega
    | cons q rest2 =>
      cases i with
      | zero =>
        have hcond : d p ≤ t ∧ d q > t := ⟨h1, h2⟩
        rw [bracketScan, if_pos hcond]
      | succ i0 =>
        have hs2 : List.Chain' (fun a b => d a ≤ d b) (q :: rest2) := hs.tail
        have hi2 : i0 + 1 < (q :: rest2).length := by
          simp only [List.length_cons] at hi ⊢; omega
        have h12 : d ((q :: rest2).getD i0 default) ≤ t := h1
        have h22 : t < d ((q :: rest2).getD (i0 + 1) default) := h2
        have hqle : d ((q :: rest2).getD 0 default) ≤ d ((q :: rest2).getD i0 default) :=
          getD_mono_of_chainLe d hs2 (Nat.zero_le i0) (by omega)
        have hq : d q ≤ t := le_trans hqle h12
        have hcond : ¬(d p ≤ t ∧ d q > t) := by
          rintro ⟨-, hgt⟩; exact absurd hq (not_le.mpr hgt)
        rw [bracketScan, if_neg hcond, ih hs2 hi2 h12 h22]
        rfl

end SortedHelpers

/-- The backward scan returns `none` when every sample is in the future. -/
theorem lastLE_eq_none_of_all_gt {l : List TelemetryData} {t : ℚ}
    (h : ∀ p ∈ l, t < p.date) : lastLE l t = none := by
  induction l with
  | nil => rfl
  | cons p rest ih =>
    have hrest : lastLE rest t = none := ih fun x hx => h x (List.mem_cons_of_mem p hx)
    have hp : ¬p.date ≤ t := not_le.mpr (h p (by simp))
    rw [lastLE, hrest, if_neg hp]

/-- The backward scan returns the index of a sample at or before the
target when every later sample is strictly after the target. -/
theorem lastLE_eq_some_of_bracket {l : List TelemetryData} {t : ℚ} {i : ℕ}
    (hi : i < l.length) (h1 : (l.getD i default).date ≤ t)
    (h2 : ∀ p ∈ l.drop (i + 1), t < p.date) : lastLE l t = some i := by
  induction l generalizing i with
  | nil => simp at hi
  | cons p rest ih =>
    cases i with
    | zero =>
      have hrest : lastLE rest t = none := lastLE_eq_none_of_all_gt (by simpa using h2)
      have hp : p.date ≤ t := by simpa using h1
      simp [lastLE, hrest, hp]
    | succ i0 =>
      have hi2 : i0 < rest.length := by simp only [List.length_cons] at hi; omega
      have hrest : lastLE rest t = some i0 := ih hi2 h1 (by simpa using h2)
      rw [lastLE, hrest]

/-- When the final sample is at or before the target, the backward scan
returns the final index, whatever the ordering of the buffer. -/
theorem lastLE_eq_last {l : List TelemetryData} {t : ℚ}
    (h0 : l ≠ []) (h : (l.getD (l.length - 1) default).date ≤ t) :
    lastLE l t = some (l.length - 1) := by
  induction l with
  | nil => exact absurd rfl h0
  | cons p rest ih =>
    cases hr : rest with
    | nil =>
      subst hr
      have hp : p.date ≤ t := by simpa using h
      simp [lastLE, hp]
    | cons q rest2 =>
      subst hr
      have hlen : (q :: rest2).length - 1 + 1 = (p :: q :: rest2).length - 1 := by
        simp only [List.length_cons]; omega
      have h2 : ((q :: rest2).getD ((q :: rest2).length - 1) default).date ≤ t := by
        have : (p :: q :: rest2).getD ((p :: q :: rest2).length - 1) default
            = (q :: rest2).getD ((q :: rest2).length - 1) default := by
          simp only [List.length_cons]
          rfl
        rw [← this]; exact h
      have hrest := ih (by simp) h2
      rw [lastLE, hrest]
      simp only [List.length_cons, Nat.add_sub_cancel]

/-- A bracketed factor needs no clamping: under
`a ≤ t < b` the raw factor already lies in `[0, 1)`. -/
theorem clamp_factor_eq {a b t : ℚ} (h1 : a ≤ t) (h2 : t < b) :
    max 0 (min 1 ((t - a) / (b - a))) = (t - a) / (b - a) := by
  have hab : (0 : ℚ) < b - a := by linarith
  have hnn : (0 : ℚ) ≤ (t - a) / (b - a) := div_nonneg (by linarith) (le_of_lt hab)
  have hlt : (t - a) / (b - a) < 1 := by
    rw [div_lt_one hab]; linarith
  rw [min_eq_right (le_of_lt hlt), max_eq_right hnn]

/-- On a sorted buffer, a bracketed target reaches the interpolation body
with exactly the bracketing pair. -/
theorem getInterpolatedData_bracket {data : List TelemetryData} {t r : ℚ} {i : ℕ}
    (hs : List.Chain' (fun a b : TelemetryData => a.date < b.date) data)
    (hi : i + 1 < data.length)
    (h1 : (data.getD i default).date ≤ t)
    (h2 : t < (data.getD (i + 1) default).date) :
    getInterpolatedData data t r
      = some (interpCore (data.getD i default) (data.getD (i + 1) default) t r) := by
  have hsle : List.Chain' (fun a b : TelemetryData => a.date ≤ b.date) data :=
    hs.imp fun a b h => le_of_lt h
  have hdrop : ∀ p ∈ data.drop (i + 1), t < p.date :=
    drop_gt_of_chainLe (fun p : TelemetryData => p.date) hsle hi h2
  have hlast : lastLE data t = some i := lastLE_eq_some_of_bracket (by omega) h1 hdrop
  have hne : ¬data.length = 0 := by omega
  have hne2 : ¬i = data.length - 1 := by omega
  simp [getInterpolatedData, hne, hlast, hne2]

/-- When the target precedes every sample of a sorted buffer, the first
sample is returned with its fields verbatim and `gForce` 0. -/
theorem getInterpolatedData_before {data : List TelemetryData} {t : ℚ} (r : ℚ)
    (h0 : data ≠ [])
    (hs : List.Chain' (fun a b : TelemetryData => a.date < b.date) data)
    (h : t < (data.getD 0 default).date) :
    getInterpolatedData data t r = some (edgeDisplay (data.getD 0 default)) := by
  have hsle : List.Chain' (fun a b : TelemetryData => a.date ≤ b.date) data :=
    hs.imp fun a b h => le_of_lt h
  have hall : ∀ p ∈ data, t < p.date := all_gt_of_chainLe (fun p : TelemetryData => p.date) hsle h
  have hlast : lastLE data t = none := lastLE_eq_none_of_all_gt hall
  have hne : ¬data.length = 0 := fun hc => h0 (List.length_eq_zero.mp hc)
  simp [getInterpolatedData, hne, hlast]

/-- When the target is at or after the final sample, the final sample is
returned with its fields verbatim and `gForce` 0 (no ordering hypothesis
is needed: the backward scan stops at the final index at once). -/
theorem getInterpolatedData_after {data : List TelemetryData} {t : ℚ} (r : ℚ)
    (h0 : data ≠ [])
    (h : (data.getD (data.length - 1) default).date ≤ t) :
    getInterpolatedData data t r
      = some (edgeDisplay (data.getD (data.length - 1) default)) := by
  have hlast : lastLE data t = some (data.length - 1) := lastLE_eq_last h0 h
  have hne : ¬data.length = 0 := fun hc => h0 (List.length_eq_zero.mp hc)
  simp [getInterpolatedData, hne, hlast]

/-- On a sorted location buffer, a bracketed target yields the linear
interpolation of the bracketing pair at the raw, unclamped factor. -/
theorem animateLocation_bracket {points : List LocSample} {t : ℚ} {i : ℕ}
    (hs : List.Chain' (fun a b : LocSample => a.date ≤ b.date) points)
    (hi : i + 1 < points.length)
    (h1 : (points.getD i default).date ≤ t)
    (h2 : t < (points.getD (i + 1) default).date) :
    animateLocation points t =
      (lerp (points.getD i default).x (points.getD (i + 1) default).x
        ((t - (points.getD i default).date) /
          ((points.getD (i + 1) default).date - (points.getD i default).date)),
       lerp (points.getD i default).y (points.getD (i + 1) default).y
        ((t - (points.getD i default).date) /
          ((points.getD (i + 1) default).date - (points.getD i default).date))) := by
  have hscan := bracketScan_eq_some_of_bracket (fun p : LocSample => p.date) hs hi h1 h2
  simp only [animateLocation, hscan]
  rw [clamp_factor_eq h1 h2]

/-- When the target precedes every sample of a sorted location buffer,
the first coordinates are used verbatim. -/
theorem animateLocation_before {points : List LocSample} {t : ℚ}
    (hs : List.Chain' (fun a b : LocSample => a.date ≤ b.date) points)
    (h : t < (points.getD 0 default).date) :
    animateLocation points t = ((points.getD 0 default).x, (points.getD 0 default).y) := by
  have hall : ∀ p ∈ points, t < p.date := all_gt_of_chainLe (fun p : LocSample => p.date) hs h
  have hscan := bracketScan_eq_none_of_all_gt (fun p : LocSample => p.date) hall
  simp only [animateLocation, hscan]
  rw [if_pos (show (points.getD 0 default).date > t from h)]

/-- When the target is strictly after the final sample of a sorted
location buffer, the final coordinates are used verbatim. -/
theorem animateLocation_after {points : List LocSample} {t : ℚ}
    (h0 : points ≠ [])
    (hs : List.Chain' (fun a b : LocSample => a.date ≤ b.date) points)
    (h : (points.getD (points.length - 1) default).date < t) :
    animateLocation points t =
      ((points.getD (points.length - 1) default).x,
       (points.getD (points.length - 1) default).y) := by
  have hall : ∀ p ∈ points, p.date ≤ t :=
    all_le_of_chainLe (fun p : LocSample => p.date) hs (le_of_lt h)
  have hscan := bracketScan_eq_none_of_all_le (fun p : LocSample => p.date) hall
  have hlen : points.length - 1 < points.length := by
    have := List.length_pos.mpr h0; omega
  have hfl : (points.getD 0 default).date ≤ (points.getD (points.length - 1) default).date :=
    getD_mono_of_chainLe (fun p : LocSample => p.date) hs (Nat.zero_le _) hlen
  have hfirst : ¬(points.getD 0 default).date > t := not_lt.mpr (le_of_lt (lt_of_le_of_lt hfl h))
  simp only [animateLocation, hscan]
  rw [if_neg hfirst, if_pos h]

/-- When the target equals the final sample date of a sorted location
buffer, no branch assigns a coordinate and the initial `(0, 0)` is
kept. -/
theorem animateLocation_at_last {points : List LocSample} {t : ℚ}
    (h0 : points ≠ [])
    (hs : List.Chain' (fun a b : LocSample => a.date ≤ b.date) points)
    (h : t = (points.getD (points.length - 1) default).date) :
    animateLocation points t = (0, 0) := by
  have hall : ∀ p ∈ points, p.date ≤ t :=
    all_le_of_chainLe (fun p : LocSample => p.date) hs (le_of_eq h.symm)
  have hscan := bracketScan_eq_none_of_all_le (fun p : LocSample => p.date) hall
  have hlen : points.length - 1 < points.length := by
    have := List.length_pos.mpr h0; omega
  have hfl : (points.getD 0 default).date ≤ (points.getD (points.length - 1) default).date :=
    getD_mono_of_chainLe (fun p : LocSample => p.date) hs (Nat.zero_le _) hlen
  have hfirst : ¬(points.getD 0 default).date > t := by
    rw [h]; exact not_lt.mpr hfl
  have hlast : ¬(points.getD (points.length - 1) default).date < t := by
    rw [h]; exact lt_irrefl _
  simp only [animateLocation, hscan]
  rw [if_neg hfirst, if_neg hlast]

/-- On a sorted telemetry buffer, a bracketed target updates the display
with the rounded interpolated continuous fields and the left bracket
gear. -/
theorem animateTelemetry_bracket {pts : List CarSample} {t : ℚ} {i : ℕ}
    (hs : List.Chain' (fun a b : CarSample => a.date ≤ b.date) pts)
    (hi : i + 1 < pts.length)
    (h1 : (pts.getD i default).date ≤ t)
    (h2 : t < (pts.getD (i + 1) default).date) :
    animateTelemetry pts t =
      some { speed := (jsRound (lerp (pts.getD i default).speed (pts.getD (i + 1) default).speed
                ((t - (pts.getD i default).date) /
                  ((pts.getD (i + 1) default).date - (pts.getD i default).date))) : ℚ),
             gear := (pts.getD i default).gear,
             throttle := (jsRound (lerp (pts.getD i default).throttle (pts.getD (i + 1) default).throttle
                ((t - (pts.getD i default).date) /
                  ((pts.getD (i + 1) default).date - (pts.getD i default).date))) : ℚ),
             brake := (jsRound (lerp (pts.getD i default).brake (pts.getD (i + 1) default).brake
                ((t - (pts.getD i default).date) /
                  ((pts.getD (i + 1) default).date - (pts.getD i default).date))) : ℚ),
             rpm := (jsRound (lerp (pts.getD i default).rpm (pts.getD (i + 1) default).rpm
                ((t - (pts.getD i default).date) /
                  ((pts.getD (i + 1) default).date - (pts.getD i default).date))) : ℚ) } := by
  have hscan := bracketScan_eq_some_of_bracket (fun p : CarSample => p.date) hs hi h1 h2
  have hlen : ¬pts.length ≤ 1 := by omega
  simp only [animateTelemetry, if_neg hlen, hscan]
  rw [clamp_factor_eq h1 h2]

/-! ### Buffer normalization machinery (C6, C7) -/

instance : IsTotal LocSample (fun a b => a.date ≤ b.date) :=
  ⟨fun a b => le_total a.date b.date⟩

instance : IsTrans LocSample (fun a b => a.date ≤ b.date) :=
  ⟨fun _ _ _ hab hbc => le_trans hab hbc⟩

/-- Dedup insert keeps timestamps pairwise distinct. -/
theorem insertLoc_pairwise_ne {buf : List LocSample} (s : LocSample)
    (h : List.Pairwise (fun a b : LocSample => a.date ≠ b.date) buf) :
    List.Pairwise (fun a b : LocSample => a.date ≠ b.date) (insertLoc buf s) := by
  cases hc : buf.any (fun p => p.date = s.date) with
  | true => simpa [insertLoc, hc] using h
  | false =>
    have hne : ∀ p ∈ buf, p.date ≠ s.date := by
      intro p hp
      intro hd
      have : buf.any (fun p => p.date = s.date) = true :=
        List.any_eq_true.mpr ⟨p, hp, by simpa using hd⟩
      rw [hc] at this
      exact Bool.false_ne_true this
    have : insertLoc buf s = buf ++ [s] := by simp [insertLoc, hc]
    rw [this]
    refine List.pairwise_append.mpr ⟨h, List.pairwise_singleton _ _, ?_⟩
    intro a ha b hb
    simp only [List.mem_singleton] at hb
    subst hb
    exact hne a ha

/-- Batch insert keeps timestamps pairwise distinct. -/
theorem insertBatch_pairwise_ne {buf incoming : List LocSample}
    (h : List.Pairwise (fun a b : LocSample => a.date ≠ b.date) buf) :
    List.Pairwise (fun a b : LocSample => a.date ≠ b.date) (insertBatch buf incoming) := by
  induction incoming generalizing buf with
  | nil => simpa [insertBatch] using h
  | cons s rest ih =>
    have : insertBatch buf (s :: rest) = insertBatch (insertLoc buf s) rest := by
      simp [insertBatch]
    rw [this]
    exact ih (insertLoc_pairwise_ne s h)

/-- The sort step produces an ascending buffer. -/
theorem sortByDate_sorted (buf : List LocSample) :
    List.Sorted (fun a b : LocSample => a.date ≤ b.date) (sortByDate buf) :=
  List.sorted_insertionSort _ buf

/-- The sort step is a permutation of the buffer. -/
theorem sortByDate_perm (buf : List LocSample) : (sortByDate buf).Perm buf :=
  List.perm_insertionSort _ buf

/-- After one full fetch-insert-normalize-evict cycle the buffer is in
strictly increasing timestamp order, provided timestamps were pairwise
distinct before (as the empty initial buffer is, so this invariant is
maintained inductively across cycles). -/
theorem fetchCycle_strict_chain {buf : List LocSample} (incoming : List LocSample) (nowMs : ℚ)
    (h : List.Pairwise (fun a b : LocSample => a.date ≠ b.date) buf) :
    List.Chain' (fun a b : LocSample => a.date < b.date) (fetchCycle buf incoming nowMs) := by
  have h1 := @insertBatch_pairwise_ne buf incoming h
  have hperm := sortByDate_perm (insertBatch buf incoming)
  have h2 : List.Pairwise (fun a b : LocSample => a.date ≠ b.date)
      (sortByDate (insertBatch buf incoming)) :=
    (hperm.pairwise_iff fun hxy => hxy.symm).mpr h1
  have h3 := sortByDate_sorted (insertBatch buf incoming)
  have h4 : List.Pairwise (fun a b : LocSample => a.date < b.date)
      (sortByDate (insertBatch buf incoming)) :=
    (List.Pairwise.and h3 h2).imp fun hab => lt_of_le_of_ne hab.1 hab.2
  have h5 := h4.filter (fun p => decide (p.date > nowMs - 2000))
  exact List.Pairwise.chain' h5

/-- Dedup insert from the sample's timestamp viewpoint: if the timestamp
is already present the buffer is unchanged, otherwise exactly one entry
with that timestamp is added, so the count for that timestamp always
lands at `max previous 1`. -/
theorem insertLoc_countP (buf : List LocSample) (s : LocSample) :
    List.countP (fun p => p.date = s.date) (insertLoc buf s)
      = max (List.countP (fun p => p.date = s.date) buf) 1 := by
  cases hc : buf.any (fun p => p.date = s.date) with
  | false =>
    have h0 : List.countP (fun p => decide (p.date = s.date)) buf = 0 := by
      refine List.countP_eq_zero.mpr ?_
      intro a ha hd
      have : buf.any (fun p => p.date = s.date) = true := List.any_eq_true.mpr ⟨a, ha, hd⟩
      rw [hc] at this
      exact Bool.false_ne_true this
    have he : insertLoc buf s = buf ++ [s] := by simp [insertLoc, hc]
    rw [he, List.countP_append, h0]
    simp
  | true =>
    have hpos : 0 < List.countP (fun p => decide (p.date = s.date)) buf := by
      rcases List.any_eq_true.mp hc with ⟨x, hx, hdec⟩
      exact List.countP_pos_iff.mpr ⟨x, hx, hdec⟩
    have he : insertLoc buf s = buf := by simp [insertLoc, hc]
    rw [he, max_eq_left hpos]

/-- Membership characterization of the eviction filter. -/
theorem mem_evictBuffer {buf : List LocSample} {cutoff : ℚ} {p : LocSample} :
    p ∈ evictBuffer buf cutoff ↔ p ∈ buf ∧ cutoff < p.date := by
  simp [evictBuffer]

/-! ### Determinism machinery (C5) and the derived metric (C4) -/

/-- Outside the `rpm` field the interpolation body does not depend on the
random draw. -/
theorem maskRpm_interpCore (p1 p2 : TelemetryData) (t r₁ r₂ : ℚ) :
    maskRpm (interpCore p1 p2 t r₁) = maskRpm (interpCore p1 p2 t r₂) := by
  by_cases h : p2.date = p1.date
  · simp [interpCore, h]
  · simp [interpCore, h, maskRpm]

/-- With the high-RPM vibration branch not taken (interpolated throttle
at most 80 and interpolated rpm at most 10000) the interpolation body
does not depend on the random draw at all. -/
theorem interpCore_eq_of_no_jitter (p1 p2 : TelemetryData) (t r₁ r₂ : ℚ)
    (hth : lerp p1.throttle p2.throttle ((t - p1.date) / (p2.date - p1.date)) ≤ 80)
    (hrpm : lerp p1.rpm p2.rpm ((t - p1.date) / (p2.date - p1.date)) ≤ 10000) :
    interpCore p1 p2 t r₁ = interpCore p1 p2 t r₂ := by
  by_cases h : p2.date = p1.date
  · simp [interpCore, h]
  · have hcond : ¬(lerp p1.throttle p2.throttle ((t - p1.date) / (p2.date - p1.date)) > 80
        ∨ lerp p1.rpm p2.rpm ((t - p1.date) / (p2.date - p1.date)) > 10000) := by
      push_neg
      exact ⟨hth, hrpm⟩
    simp only [interpCore, if_neg h, if_neg hcond]

/-- Every field of the dashboard interpolator except `rpm` is a function
of the buffer and the target time alone. -/
theorem getInterpolatedData_maskRpm (data : List TelemetryData) (t r₁ r₂ : ℚ) :
    (getInterpolatedData data t r₁).map maskRpm
      = (getInterpolatedData data t r₂).map maskRpm := by
  by_cases h0 : data.length = 0
  · simp [getInterpolatedData, h0]
  · simp only [getInterpolatedData, if_neg h0]
    cases hl : lastLE data t with
    | none => rfl
    | some idx =>
      by_cases hi : idx = data.length - 1
      · simp [hi]
      · simp only [if_neg hi, Option.map_some']
        exact congrArg some (maskRpm_interpCore _ _ t r₁ r₂)

/-- The derived g-force of the interpolation body, in closed form: the
raw bracket speed delta in m/s over the time delta in seconds, divided by
standard gravity, and exactly 0 whenever the time delta is not positive
(in particular on the duplicate-timestamp short circuit). -/
theorem interpCore_gForce (p1 p2 : TelemetryData) (t r : ℚ) :
    (interpCore p1 p2 t r).gForce
      = if p1.date < p2.date then
          ((p2.speed / (36/10) - p1.speed / (36/10)) / ((p2.date - p1.date) / 1000)) / (981/100)
        else 0 := by
  by_cases h : p2.date = p1.date
  · have hnlt : ¬p1.date < p2.date := by rw [h]; exact lt_irrefl _
    simp [interpCore, h, edgeDisplay, hnlt]
  · by_cases hlt : p1.date < p2.date
    · have hdt : (p2.date - p1.date) / 1000 > 0 := by
        apply div_pos (by linarith) (by norm_num)
      simp [interpCore, h, hlt, hdt]
    · have hdt : ¬(p2.date - p1.date) / 1000 > 0 := by
        have hle : p2.date ≤ p1.date := not_lt.mp hlt
        have : (p2.date - p1.date) / 1000 ≤ 0 := by
          apply div_nonpos_of_nonpos_of_nonneg (by linarith) (by norm_num)
        exact not_lt.mpr this
      simp [interpCore, h, hlt, hdt]

/-- The early-return paths all carry a zero g-force. -/
theorem edgeDisplay_gForce (p : TelemetryData) : (edgeDisplay p).gForce = 0 := rfl

/-- The duplicate-timestamp guard of the interpolation body returns the
left sample verbatim with g-force 0. -/
theorem interpCore_eq_timestamps (p1 p2 : TelemetryData) (t r : ℚ)
    (h : p2.date = p1.date) : interpCore p1 p2 t r = edgeDisplay p1 := by
  simp [interpCore, h]

/-- The `gear` output of the interpolation body is always the left
bracket sample value, on both the interpolating and the short-circuit
branch. -/
theorem interpCore_gear (p1 p2 : TelemetryData) (t r : ℚ) :
    (interpCore p1 p2 t r).gear = p1.gear := by
  by_cases h : p2.date = p1.date <;> simp [interpCore, h, edgeDisplay]

/-- The `drs` output of the interpolation body is always the left
bracket sample value. -/
theorem interpCore_drs (p1 p2 : TelemetryData) (t r : ℚ) :
    (interpCore p1 p2 t r).drs = p1.drs := by
  by_cases h : p2.date = p1.date <;> simp [interpCore, h, edgeDisplay]

/-- Dedup insert is idempotent. -/
theorem insertLoc_idem (buf : List LocSample) (s : LocSample) :
    insertLoc (insertLoc buf s) s = insertLoc buf s := by
  cases hc : buf.any (fun p => p.date = s.date) with
  | true => simp [insertLoc, hc]
  | false =>
    have he : insertLoc buf s = buf ++ [s] := by simp [insertLoc, hc]
    have h2 : (buf ++ [s]).any (fun p => p.date = s.date) = true :=
      List.any_eq_true.mpr ⟨s, by simp, by simp⟩
    rw [he]
    simp [insertLoc, h2]

/-! ### Claim theorems -/

/-- C1, counterexample: the claim asserts the interpolator returns the
exact value `prev.value + (next.value - prev.value) * factor` for the
continuous fields, but the dashboard interpolator rounds each lerped
field with `Math.round`. With `prev.speed = 0`, `next.speed = 1`,
timestamps 0 and 10 and target 4, the exact lerp is `2/5` while the
returned speed is `0`. -/
theorem c1_counterexample_rounding :
    (getInterpolatedData [⟨0,0,0,0,0,0,0⟩, ⟨10,1,0,0,0,0,0⟩] 4 0).map (fun dp => dp.speed)
      = some 0
    ∧ (0 : ℚ) + ((1 : ℚ) - 0) * (((4 : ℚ) - 0) / ((10 : ℚ) - 0)) = 2/5
    ∧ (0 : ℚ) ≠ 2/5 := by
  refine ⟨?_, by norm_num, by norm_num⟩
  norm_num [getInterpolatedData, lastLE, interpCore, lerp, jsRound]

/-- C1 (amended): for a bracketed target on a sorted buffer, the factor
is `(target - prev.timestamp) / (next.timestamp - prev.timestamp)`, on
which the clamp to `[0, 1]` is the identity; the returned sample carries
the requested target time as its timestamp; each continuous field of the
dashboard output is `Math.round` of `prev.value + (next.value -
prev.value) * factor` (with `rpm` additionally jittered when the
interpolated throttle exceeds 80 or the interpolated rpm exceeds 10000);
the location interpolator returns the exact unrounded lerp for `x` and
`y`; and when `next.timestamp` equals `prev.timestamp` the body
short-circuits to the values of `prev`. -/
theorem c1_bracketed_lerp_rounded :
    (∀ (data : List TelemetryData) (t r : ℚ) (i : ℕ) (p1 p2 : TelemetryData) (f : ℚ),
      List.Chain' (fun a b : TelemetryData => a.date < b.date) data →
      i + 1 < data.length →
      p1 = data.getD i default →
      p2 = data.getD (i + 1) default →
      p1.date ≤ t →
      t < p2.date →
      f = (t - p1.date) / (p2.date - p1.date) →
        max 0 (min 1 f) = f
        ∧ (getInterpolatedData data t r).map (fun dp => dp.date) = some t
        ∧ (getInterpolatedData data t r).map (fun dp => dp.speed)
            = some ((jsRound (p1.speed + (p2.speed - p1.speed) * f) : ℚ))
        ∧ (getInterpolatedData data t r).map (fun dp => dp.throttle)
            = some ((jsRound (p1.throttle + (p2.throttle - p1.throttle) * f) : ℚ))
        ∧ (getInterpolatedData data t r).map (fun dp => dp.brake)
            = some ((jsRound (p1.brake + (p2.brake - p1.brake) * f) : ℚ))
        ∧ (getInterpolatedData data t r).map (fun dp => dp.rpm)
            = some ((jsRound (if p1.throttle + (p2.throttle - p1.throttle) * f > 80
                  ∨ p1.rpm + (p2.rpm - p1.rpm) * f > 10000
                then p1.rpm + (p2.rpm - p1.rpm) * f + (r - 1/2) * 50
                else p1.rpm + (p2.rpm - p1.rpm) * f) : ℚ)))
    ∧ (∀ (points : List LocSample) (t : ℚ) (i : ℕ) (p1 p2 : LocSample) (f : ℚ),
      List.Chain' (fun a b : LocSample => a.date ≤ b.date) points →
      i + 1 < points.length →
      p1 = points.getD i default →
      p2 = points.getD (i + 1) default →
      p1.date ≤ t →
      t < p2.date →
      f = (t - p1.date) / (p2.date - p1.date) →
        animateLocation points t = (p1.x + (p2.x - p1.x) * f, p1.y + (p2.y - p1.y) * f))
    ∧ (∀ (p1 p2 : TelemetryData) (t r : ℚ),
        p2.date = p1.date → interpCore p1 p2 t r = edgeDisplay p1) := by
  refine ⟨?_, ?_, ?_⟩
  · intro data t r i p1 p2 f hs hi hp1 hp2 h1 h2 hf
    subst hp1; subst hp2; subst hf
    have hb := @getInterpolatedData_bracket data t r i hs hi h1 h2
    have hne : (data.getD (i + 1) default).date ≠ (data.getD i default).date := by
      intro he; rw [he] at h2; exact absurd h1 (not_le.mpr h2)
    refine ⟨clamp_factor_eq h1 h2, ?_, ?_, ?_, ?_, ?_⟩ <;>
      rw [hb] <;> simp only [interpCore, if_neg hne, Option.map_some', lerp]
  · intro points t i p1 p2 f hs hi hp1 hp2 h1 h2 hf
    subst hp1; subst hp2; subst hf
    rw [animateLocation_bracket hs hi h1 h2]
    simp [lerp]
  · intro p1 p2 t r h
    exact interpCore_eq_timestamps p1 p2 t r h

/-- Witness for C1 at the spec test vector: samples `(t=0, v=0)` and
`(t=10, v=100)`, target 3, yield speed 30 and output timestamp 3. -/
theorem c1_witness :
    (getInterpolatedData [⟨0,0,0,0,0,0,0⟩, ⟨10,100,0,0,0,0,0⟩] 3 0).map (fun dp => dp.speed)
      = some 30
    ∧ (getInterpolatedData [⟨0,0,0,0,0,0,0⟩, ⟨10,100,0,0,0,0,0⟩] 3 0).map (fun dp => dp.date)
      = some 3 := by
  have h := c1_bracketed_lerp_rounded.1 [⟨0,0,0,0,0,0,0⟩, ⟨10,100,0,0,0,0,0⟩] 3 0 0
    ⟨0,0,0,0,0,0,0⟩ ⟨10,100,0,0,0,0,0⟩ ((3 - (0:ℚ)) / ((10:ℚ) - 0))
    (by norm_num [List.chain'_cons]) (by norm_num) rfl rfl (by norm_num) (by norm_num) rfl
  obtain ⟨-, hdate, hspeed, -⟩ := h
  refine ⟨?_, hdate⟩
  rw [hspeed]
  norm_num [jsRound]

/-- C2, counterexample: with location samples at `t = 5` and `t = 10`,
interpolating at target exactly 10 (at the last sample) assigns no
coordinate at all — the initial `(0, 0)` survives and nothing is emitted
— instead of returning the last sample values `(2, 2)` as the claim
("at or after the last sample") asserts. -/
theorem c2_counterexample_at_last :
    animateLocation [⟨1,1,5⟩, ⟨2,2,10⟩] 10 = (0, 0)
    ∧ emitLocation [⟨1,1,5⟩, ⟨2,2,10⟩] 10 = none
    ∧ ((0 : ℚ), (0 : ℚ)) ≠ (((⟨2,2,10⟩ : LocSample)).x, ((⟨2,2,10⟩ : LocSample)).y) := by
  refine ⟨?_, ?_, by norm_num [Prod.ext_iff]⟩ <;>
    norm_num [animateLocation, emitLocation, bracketScan, lerp]

/-- C2 (amended): no extrapolation ever happens. The dashboard
interpolator returns the first sample verbatim before the first sample
and the last sample verbatim at or after the last sample; the location
interpolator uses the first coordinates strictly before the first
sample and the last coordinates strictly after the last sample, while a
target exactly at the last sample timestamp assigns no coordinate. -/
theorem c2_no_extrapolation :
    (∀ (data : List TelemetryData) (t r : ℚ),
      data ≠ [] →
      List.Chain' (fun a b : TelemetryData => a.date < b.date) data →
      t < (data.getD 0 default).date →
      getInterpolatedData data t r = some (edgeDisplay (data.getD 0 default)))
    ∧ (∀ (data : List TelemetryData) (t r : ℚ),
      data ≠ [] →
      (data.getD (data.length - 1) default).date ≤ t →
      getInterpolatedData data t r = some (edgeDisplay (data.getD (data.length - 1) default)))
    ∧ (∀ (points : List LocSample) (t : ℚ),
      List.Chain' (fun a b : LocSample => a.date ≤ b.date) points →
      t < (points.getD 0 default).date →
      animateLocation points t = ((points.getD 0 default).x, (points.getD 0 default).y))
    ∧ (∀ (points : List LocSample) (t : ℚ),
      points ≠ [] →
      List.Chain' (fun a b : LocSample => a.date ≤ b.date) points →
      (points.getD (points.length - 1) default).date < t →
      animateLocation points t =
        ((points.getD (points.length - 1) default).x,
         (points.getD (points.length - 1) default).y))
    ∧ (∀ (points : List LocSample) (t : ℚ),
      points ≠ [] →
      List.Chain' (fun a b : LocSample => a.date ≤ b.date) points →
      t = (points.getD (points.length - 1) default).date →
      animateLocation points t = (0, 0)) := by
  refine ⟨?_, ?_, ?_, ?_, ?_⟩
  · intro data t r h0 hs h
    exact getInterpolatedData_before r h0 hs h
  · intro data t r h0 h
    exact getInterpolatedData_after r h0 h
  · intro points t hs h
    exact animateLocation_before hs h
  · intro points t h0 hs h
    exact animateLocation_after h0 hs h
  · intro points t h0 hs h
    exact animateLocation_at_last h0 hs h

/-- Witness for C2 at the spec example: with samples only at `t = 5` and
`t = 10`, interpolating at target 20 yields exactly the `t = 10` sample
values, and the location interpolator behaves likewise. -/
theorem c2_witness :
    getInterpolatedData [⟨5,7,8,9,11,3,1⟩, ⟨10,100,50,25,9000,4,0⟩] 20 0
      = some (edgeDisplay ⟨10,100,50,25,9000,4,0⟩)
    ∧ animateLocation [⟨1,1,5⟩, ⟨2,2,10⟩] 20 = (2, 2) := by
  constructor
  · exact c2_no_extrapolation.2.1 [⟨5,7,8,9,11,3,1⟩, ⟨10,100,50,25,9000,4,0⟩] 20 0
      (by simp) (by norm_num)
  · have h := c2_no_extrapolation.2.2.2.1 [⟨1,1,5⟩, ⟨2,2,10⟩] 20
      (by simp) (by norm_num [List.chain'_cons]) (by norm_num)
    simpa using h

/-- C3: for a bracketed target, the discrete fields `gear` and `drs` of
the dashboard output, and the `gear` field of the circuit telemetry
display, are exactly the left bracket sample values — a step function,
never a ramp. -/
theorem c3_discrete_fields_step :
    (∀ (data : List TelemetryData) (t r : ℚ) (i : ℕ),
      List.Chain' (fun a b : TelemetryData => a.date < b.date) data →
      i + 1 < data.length →
      (data.getD i default).date ≤ t →
      t < (data.getD (i + 1) default).date →
        (getInterpolatedData data t r).map (fun dp => dp.gear)
          = some (data.getD i default).gear
        ∧ (getInterpolatedData data t r).map (fun dp => dp.drs)
          = some (data.getD i default).drs)
    ∧ (∀ (pts : List CarSample) (t : ℚ) (i : ℕ),
      List.Chain' (fun a b : CarSample => a.date ≤ b.date) pts →
      i + 1 < pts.length →
      (pts.getD i default).date ≤ t →
      t < (pts.getD (i + 1) default).date →
        (animateTelemetry pts t).map (fun a => a.gear) = some (pts.getD i default).gear) := by
  constructor
  · intro data t r i hs hi h1 h2
    have hb := @getInterpolatedData_bracket data t r i hs hi h1 h2
    rw [hb]
    simp only [Option.map_some', interpCore_gear, interpCore_drs]
    exact ⟨trivial, trivial⟩
  · intro pts t i hs hi h1 h2
    rw [animateTelemetry_bracket hs hi h1 h2]
    simp

/-- Witness for C3: interpolating between `prev.gear = 3` and
`next.gear = 4` at factor 2/5 yields gear 3, not a fractional value, in
both interpolators. -/
theorem c3_witness :
    (getInterpolatedData [⟨0,0,0,0,0,3,1⟩, ⟨10,100,0,0,0,4,0⟩] 4 0).map (fun dp => dp.gear)
      = some 3
    ∧ (getInterpolatedData [⟨0,0,0,0,0,3,1⟩, ⟨10,100,0,0,0,4,0⟩] 4 0).map (fun dp => dp.drs)
      = some 1
    ∧ (animateTelemetry [⟨0,0,3,0,0,0⟩, ⟨10,100,4,0,0,0⟩] 4).map (fun a => a.gear)
      = some 3 := by
  have h1 := c3_discrete_fields_step.1 [⟨0,0,0,0,0,3,1⟩, ⟨10,100,0,0,0,4,0⟩] 4 0 0
    (by norm_num [List.chain'_cons]) (by norm_num) (by norm_num) (by norm_num)
  have h2 := c3_discrete_fields_step.2 [⟨0,0,3,0,0,0⟩, ⟨10,100,4,0,0,0⟩] 4 0
    (by norm_num [List.chain'_cons]) (by norm_num) (by norm_num) (by norm_num)
  exact ⟨h1.1, h1.2, h2⟩

/-- C4: the derived g-force of the interpolation body is computed from
the raw bracket samples as the speed delta converted from km/h to m/s,
divided by the time delta in seconds, divided by 9.81, and is exactly 0
whenever the time delta is not positive (in particular when the two
bracket timestamps coincide); on the early-return paths the g-force is
0. Over the rational semantics the output is a total, finite value in
every case — the `dt > 0` guard and the `isNaN` filter of the source
leave no division by zero to perform. -/
theorem c4_gforce_from_raw_brackets :
    (∀ (p1 p2 : TelemetryData) (t r : ℚ),
      (interpCore p1 p2 t r).gForce
        = if p1.date < p2.date then
            ((p2.speed / (36/10) - p1.speed / (36/10)) / ((p2.date - p1.date) / 1000))
              / (981/100)
          else 0)
    ∧ (∀ p : TelemetryData, (edgeDisplay p).gForce = 0)
    ∧ (∀ (data : List TelemetryData) (t r : ℚ) (i : ℕ),
      List.Chain' (fun a b : TelemetryData => a.date < b.date) data →
      i + 1 < data.length →
      (data.getD i default).date ≤ t →
      t < (data.getD (i + 1) default).date →
        (getInterpolatedData data t r).map (fun dp => dp.gForce)
          = some ((((data.getD (i + 1) default).speed / (36/10)
                - (data.getD i default).speed / (36/10))
              / (((data.getD (i + 1) default).date - (data.getD i default).date) / 1000))
            / (981/100))) := by
  refine ⟨interpCore_gForce, edgeDisplay_gForce, ?_⟩
  intro data t r i hs hi h1 h2
  have hb := @getInterpolatedData_bracket data t r i hs hi h1 h2
  have hlt : (data.getD i default).date < (data.getD (i + 1) default).date :=
    lt_of_le_of_lt h1 h2
  rw [hb]
  simp only [Option.map_some', interpCore_gForce, if_pos hlt]

/-- Witness for C4: speeds 0 and 36 km/h at timestamps 0 and 1000 ms
give a speed delta of 10 m/s over 1 s, hence `10 / 9.81 = 1000/981` g. -/
theorem c4_witness :
    (getInterpolatedData [⟨0,0,0,0,0,0,0⟩, ⟨1000,36,0,0,0,0,0⟩] 400 0).map (fun dp => dp.gForce)
      = some (1000/981) := by
  have h := c4_gforce_from_raw_brackets.2.2 [⟨0,0,0,0,0,0,0⟩, ⟨1000,36,0,0,0,0,0⟩] 400 0 0
    (by norm_num [List.chain'_cons]) (by norm_num) (by norm_num) (by norm_num)
  rw [h]
  norm_num

/-- C5, counterexample: the dashboard interpolator is not a pure
function of the buffer and the target time. On the high-RPM vibration
path (interpolated throttle above 80) the returned `rpm` depends on the
`Math.random()` draw, modelled here by the explicit `rand` input: the
same buffer and target evaluated at draws 0 and 1/2 give different
outputs. -/
theorem c5_counterexample_random_rpm :
    getInterpolatedData [⟨0,100,90,0,5000,3,0⟩, ⟨10,100,90,0,5000,4,1⟩] 4 0
      ≠ getInterpolatedData [⟨0,100,90,0,5000,3,0⟩, ⟨10,100,90,0,5000,4,1⟩] 4 (1/2) := by
  norm_num [getInterpolatedData, lastLE, interpCore, lerp, jsRound]

/-- C5 (amended): every output field except `rpm` is a function of the
buffer contents and the target time alone; and whenever the high-RPM
vibration branch is not taken (interpolated throttle at most 80 and
interpolated rpm at most 10000) the whole bracketed output, `rpm`
included, is independent of the random draw. -/
theorem c5_determinism_except_rpm :
    (∀ (data : List TelemetryData) (t r₁ r₂ : ℚ),
      (getInterpolatedData data t r₁).map maskRpm
        = (getInterpolatedData data t r₂).map maskRpm)
    ∧ (∀ (data : List TelemetryData) (t r₁ r₂ : ℚ) (i : ℕ),
      List.Chain' (fun a b : TelemetryData => a.date < b.date) data →
      i + 1 < data.length →
      (data.getD i default).date ≤ t →
      t < (data.getD (i + 1) default).date →
      lerp (data.getD i default).throttle (data.getD (i + 1) default).throttle
          ((t - (data.getD i default).date)
            / ((data.getD (i + 1) default).date - (data.getD i default).date)) ≤ 80 →
      lerp (data.getD i default).rpm (data.getD (i + 1) default).rpm
          ((t - (data.getD i default).date)
            / ((data.getD (i + 1) default).date - (data.getD i default).date)) ≤ 10000 →
        getInterpolatedData data t r₁ = getInterpolatedData data t r₂) := by
  constructor
  · exact getInterpolatedData_maskRpm
  · intro data t r₁ r₂ i hs hi h1 h2 hth hrpm
    rw [@getInterpolatedData_bracket data t r₁ i hs hi h1 h2,
      @getInterpolatedData_bracket data t r₂ i hs hi h1 h2]
    exact congrArg some (interpCore_eq_of_no_jitter _ _ t r₁ r₂ hth hrpm)

/-- Witness for C5 (amended): on a low-throttle, low-rpm buffer the full
outputs at draws 0 and 1/2 coincide, and on the jittering buffer of the
counterexample the masked outputs still coincide. -/
theorem c5_witness :
    getInterpolatedData [⟨0,50,20,0,5000,3,0⟩, ⟨10,60,40,0,6000,4,1⟩] 4 0
      = getInterpolatedData [⟨0,50,20,0,5000,3,0⟩, ⟨10,60,40,0,6000,4,1⟩] 4 (1/2)
    ∧ (getInterpolatedData [⟨0,100,90,0,5000,3,0⟩, ⟨10,100,90,0,5000,4,1⟩] 4 0).map maskRpm
      = (getInterpolatedData [⟨0,100,90,0,5000,3,0⟩, ⟨10,100,90,0,5000,4,1⟩] 4 (1/2)).map maskRpm := by
  constructor
  · exact c5_determinism_except_rpm.2 [⟨0,50,20,0,5000,3,0⟩, ⟨10,60,40,0,6000,4,1⟩] 4 0 (1/2) 0
      (by norm_num [List.chain'_cons]) (by norm_num) (by norm_num) (by norm_num)
      (by norm_num [lerp]) (by norm_num [lerp])
  · exact c5_determinism_except_rpm.1 [⟨0,100,90,0,5000,3,0⟩, ⟨10,100,90,0,5000,4,1⟩] 4 0 (1/2)

/-! ### Unfolding lemmas for the fetch retry chain -/

/-- A successful response resolves at once with its data. -/
theorem fetchAPI_ok {α : Type} (env : ℕ → FetchOutcome α) (jitter : ℕ → ℚ)
    (retries k : ℕ) (backoff : ℚ) (d : List α) (h : env k = .ok d) :
    fetchAPI env jitter retries k backoff = ⟨d, 1, false, []⟩ := by
  cases retries <;> simp [fetchAPI, h]

/-- An aborted request resolves to an empty array without logging an
error. -/
theorem fetchAPI_aborted {α : Type} (env : ℕ → FetchOutcome α) (jitter : ℕ → ℚ)
    (retries k : ℕ) (backoff : ℚ) (h : env k = .aborted) :
    fetchAPI env jitter retries k backoff = ⟨[], 1, false, []⟩ := by
  cases retries <;> simp [fetchAPI, h]

/-- Any other HTTP error resolves to an empty array, with the error
logged. -/
theorem fetchAPI_httpError {α : Type} (env : ℕ → FetchOutcome α) (jitter : ℕ → ℚ)
    (retries k : ℕ) (backoff : ℚ) (h : env k = .httpError) :
    fetchAPI env jitter retries k backoff = ⟨[], 1, true, []⟩ := by
  cases retries <;> simp [fetchAPI, h]

/-- Rate limited with no retries left: the thrown error is caught by the
same invocation and converted to an empty array, with the error
logged. -/
theorem fetchAPI_rateLimited_zero {α : Type} (env : ℕ → FetchOutcome α) (jitter : ℕ → ℚ)
    (k : ℕ) (backoff : ℚ) (h : env k = .rateLimited) :
    fetchAPI env jitter 0 k backoff = ⟨[], 1, true, []⟩ := by
  simp [fetchAPI, h]

/-- Rate limited with retries left: wait `backoff + jitter`, then retry
with one fewer retry and backoff grown by the factor 1.5. -/
theorem fetchAPI_rateLimited_succ {α : Type} (env : ℕ → FetchOutcome α) (jitter : ℕ → ℚ)
    (r k : ℕ) (backoff : ℚ) (h : env k = .rateLimited) :
    fetchAPI env jitter (r + 1) k backoff =
      ⟨(fetchAPI env jitter r (k + 1) (backoff * (3/2))).data,
       (fetchAPI env jitter r (k + 1) (backoff * (3/2))).requests + 1,
       (fetchAPI env jitter r (k + 1) (backoff * (3/2))).errorLogged,
       (backoff + jitter k) :: (fetchAPI env jitter r (k + 1) (backoff * (3/2))).waits⟩ := by
  simp [fetchAPI, h]

/-- C6: after each fetch-insert-and-normalize cycle, the location buffer
is in strictly increasing timestamp order (the pairwise-distinct
hypothesis holds for the empty initial buffer and is implied again by
the strict order that each cycle establishes); inserting a sample whose
timestamp is already present leaves exactly one entry for that
timestamp, and the insert is idempotent. -/
theorem c6_sorted_dedup_invariant :
    (∀ (buf incoming : List LocSample) (nowMs : ℚ),
      List.Pairwise (fun a b : LocSample => a.date ≠ b.date) buf →
      List.Chain' (fun a b : LocSample => a.date < b.date) (fetchCycle buf incoming nowMs))
    ∧ (∀ (buf : List LocSample) (s : LocSample),
      List.countP (fun p => p.date = s.date) (insertLoc buf s)
        = max (List.countP (fun p => p.date = s.date) buf) 1)
    ∧ (∀ (buf : List LocSample) (s : LocSample),
      insertLoc (insertLoc buf s) s = insertLoc buf s) :=
  ⟨fun _ incoming nowMs h => fetchCycle_strict_chain incoming nowMs h,
   insertLoc_countP, insertLoc_idem⟩

/-- Witness for C6: a cycle over a concrete buffer with an intra-batch
duplicate and an already-present timestamp produces a strictly
increasing buffer, and re-inserting a present timestamp leaves exactly
one entry. -/
theorem c6_witness :
    List.Chain' (fun a b : LocSample => a.date < b.date)
      (fetchCycle [⟨0,0,100⟩] [⟨9,9,100⟩, ⟨1,1,50⟩, ⟨2,2,200⟩, ⟨2,2,200⟩] 2050)
    ∧ List.countP (fun p => p.date = (⟨9,9,100⟩ : LocSample).date)
        (insertLoc [⟨0,0,100⟩] ⟨9,9,100⟩) = 1 := by
  constructor
  · exact c6_sorted_dedup_invariant.1 [⟨0,0,100⟩]
      [⟨9,9,100⟩, ⟨1,1,50⟩, ⟨2,2,200⟩, ⟨2,2,200⟩] 2050 (by simp)
  · rw [c6_sorted_dedup_invariant.2.1 [⟨0,0,100⟩] ⟨9,9,100⟩]
    norm_num [List.countP_cons, List.countP_nil]

/-- C7, counterexample: the eviction filter keeps only samples with
`date > cutoff`, so a sample whose timestamp equals the cutoff `T = 5`
is removed even though the claim says every sample with timestamp at
least `T` remains. -/
theorem c7_counterexample_boundary :
    evictBuffer [⟨0,0,5⟩] 5 = []
    ∧ (⟨0,0,5⟩ : LocSample) ∈ [(⟨0,0,5⟩ : LocSample)]
    ∧ (5 : ℚ) ≤ (⟨0,0,5⟩ : LocSample).date := by
  refine ⟨?_, by simp, by norm_num⟩
  norm_num [evictBuffer, List.filter]

/-- C7 (amended): after eviction with cutoff `T`, the buffer has dropped
exactly the samples with timestamp at most `T`: every remaining sample
has timestamp strictly greater than `T`, every sample with timestamp
strictly greater than `T` that existed before the call remains, and
nothing new appears; each fetch cycle applies this with
`T = nowMs - 2000` (the retention window). -/
theorem c7_eviction_strict :
    (∀ (buf : List LocSample) (cutoff : ℚ),
      (∀ p ∈ evictBuffer buf cutoff, cutoff < p.date)
      ∧ (∀ p ∈ buf, cutoff < p.date → p ∈ evictBuffer buf cutoff)
      ∧ (∀ p ∈ evictBuffer buf cutoff, p ∈ buf))
    ∧ (∀ (buf incoming : List LocSample) (nowMs : ℚ),
      fetchCycle buf incoming nowMs
        = evictBuffer (sortByDate (insertBatch buf incoming)) (nowMs - 2000)) := by
  constructor
  · intro buf cutoff
    refine ⟨?_, ?_, ?_⟩
    · intro p hp; exact (mem_evictBuffer.mp hp).2
    · intro p hp h; exact mem_evictBuffer.mpr ⟨hp, h⟩
    · intro p hp; exact (mem_evictBuffer.mp hp).1
  · intro buf incoming nowMs; rfl

/-- Witness for C7: a sample strictly above the cutoff survives
eviction. -/
theorem c7_witness : (⟨0,0,7⟩ : LocSample) ∈ evictBuffer [⟨0,0,7⟩] 5 :=
  (c7_eviction_strict.1 [⟨0,0,7⟩] 5).2.1 ⟨0,0,7⟩ (by simp) (by norm_num)

/-- C8: while `isAtLiveHead` is set the playback-speed buttons are
inert (`pointer-events-none`), so any attempt to set a rate is a no-op
on the whole state; and whenever the live-status pass finds the session
live and the clock at the live head, the playback speed it publishes is
exactly 1. -/
theorem c8_live_head_rate_forcing :
    (∀ (s : AppLiveState) (n : ℚ), s.isAtLiveHead = true → setRateClick n s = s)
    ∧ (∀ nowMs ds de rt sp : ℚ,
        (checkLiveStatus nowMs ds de rt sp).isSessionLive = true →
        (checkLiveStatus nowMs ds de rt sp).isAtLiveHead = true →
        (checkLiveStatus nowMs ds de rt sp).playbackSpeed = 1) := by
  constructor
  · intro s n h
    simp [setRateClick, h]
  · intro nowMs ds de rt sp h1 h2
    simp only [checkLiveStatus] at h1 h2 ⊢
    by_cases hsp : sp = 1
    · simp [h1, h2, hsp]
    · simp [h1, h2, hsp]

/-- Witness for C8: at the live head a click on the 5x button changes
nothing, and a concrete live-head status pass with requested speed 5
publishes speed 1. -/
theorem c8_witness :
    setRateClick 5 ⟨true, true, 1⟩ = ⟨true, true, 1⟩
    ∧ (checkLiveStatus 1000000 0 2000000 990000 5).playbackSpeed = 1 := by
  constructor
  · exact c8_live_head_rate_forcing.1 ⟨true, true, 1⟩ 5 rfl
  · refine c8_live_head_rate_forcing.2 1000000 0 2000000 990000 5 ?_ ?_
    · simp only [checkLiveStatus, decide_eq_true_eq]
      norm_num
    · simp only [checkLiveStatus, decide_eq_true_eq]
      rw [abs_sub_lt_iff]
      norm_num

/-- C9: the fetch helper always resolves to a value (the model is a
total function into `FetchResult`, never an exception): the chain makes
at most `retries + 1` requests; under persistent rate limiting the
default call (3 retries, base backoff 1000 ms) waits
`backoff * 1.5 ^ n + jitter` before each retry and then resolves to an
empty result; an aborted request resolves to an empty result with no
error logged; any other failure resolves to an empty result. -/
theorem c9_fetch_never_throws :
    (∀ (α : Type) (env : ℕ → FetchOutcome α) (jitter : ℕ → ℚ) (retries k : ℕ) (backoff : ℚ),
      (fetchAPI env jitter retries k backoff).requests ≤ retries + 1)
    ∧ (∀ (α : Type) (env : ℕ → FetchOutcome α) (jitter : ℕ → ℚ),
      (∀ j, env j = .rateLimited) →
      fetchAPI env jitter 3 0 1000
        = ⟨[], 4, true, [1000 + jitter 0, 1500 + jitter 1, 2250 + jitter 2]⟩)
    ∧ (∀ (α : Type) (env : ℕ → FetchOutcome α) (jitter : ℕ → ℚ) (retries k : ℕ) (backoff : ℚ),
      env k = .aborted →
      fetchAPI env jitter retries k backoff = ⟨[], 1, false, []⟩)
    ∧ (∀ (α : Type) (env : ℕ → FetchOutcome α) (jitter : ℕ → ℚ) (retries k : ℕ) (backoff : ℚ),
      env k = .httpError →
      fetchAPI env jitter retries k backoff = ⟨[], 1, true, []⟩) := by
  refine ⟨?_, ?_, ?_, ?_⟩
  · intro α env jitter retries k backoff
    induction retries generalizing k backoff with
    | zero =>
      cases henv : env k with
      | ok d =>
        rw [fetchAPI_ok env jitter 0 k backoff d henv]
      | rateLimited =>
        rw [fetchAPI_rateLimited_zero env jitter k backoff henv]
      | httpError =>
        rw [fetchAPI_httpError env jitter 0 k backoff henv]
      | aborted =>
        rw [fetchAPI_aborted env jitter 0 k backoff henv]
    | succ r ih =>
      cases henv : env k with
      | ok d =>
        rw [fetchAPI_ok env jitter (r + 1) k backoff d henv]
        show 1 ≤ r + 1 + 1
        omega
      | rateLimited =>
        rw [fetchAPI_rateLimited_succ env jitter r k backoff henv]
        have hrec := ih (k + 1) (backoff * (3/2))
        show (fetchAPI env jitter r (k + 1) (backoff * (3/2))).requests + 1 ≤ r + 1 + 1
        omega
      | httpError =>
        rw [fetchAPI_httpError env jitter (r + 1) k backoff henv]
        show 1 ≤ r + 1 + 1
        omega
      | aborted =>
        rw [fetchAPI_aborted env jitter (r + 1) k backoff henv]
        show 1 ≤ r + 1 + 1
        omega
  · intro α env jitter h
    rw [fetchAPI_rateLimited_succ env jitter 2 0 1000 (h 0),
      fetchAPI_rateLimited_succ env jitter 1 1 (1000 * (3/2)) (h 1),
      fetchAPI_rateLimited_succ env jitter 0 2 (1000 * (3/2) * (3/2)) (h 2),
      fetchAPI_rateLimited_zero env jitter 3 (1000 * (3/2) * (3/2) * (3/2)) (h 3)]
    norm_num
  · intro α env jitter retries k backoff h
    exact fetchAPI_aborted env jitter retries k backoff h
  · intro α env jitter retries k backoff h
    exact fetchAPI_httpError env jitter retries k backoff h

/-- Witness for C9: a permanently rate limited endpoint with constant
jitter 7 resolves after 4 requests to an empty result with waits 1007,
1507, 2257 ms; a concrete aborted request resolves silently. -/
theorem c9_witness :
    fetchAPI (fun _ => (FetchOutcome.rateLimited : FetchOutcome ℚ)) (fun _ => 7) 3 0 1000
      = ⟨[], 4, true, [1007, 1507, 2257]⟩
    ∧ fetchAPI (fun _ => (FetchOutcome.aborted : FetchOutcome ℚ)) (fun _ => 7) 3 0 1000
      = ⟨[], 1, false, []⟩ := by
  constructor
  · rw [c9_fetch_never_throws.2.1 ℚ (fun _ => FetchOutcome.rateLimited) (fun _ => 7)
      (fun _ => rfl)]
    norm_num
  · exact c9_fetch_never_throws.2.2.1 ℚ (fun _ => FetchOutcome.aborted) (fun _ => 7) 3 0 1000 rfl

/-- C10: a coordinate is emitted for a driver only when both of its
components differ from 0 (hence never when it is exactly the origin);
whenever the computed coordinate is the unassigned `(0, 0)` nothing is
emitted; and when the target time equals the last buffered timestamp of
a sorted buffer, no branch assigns a coordinate, so the driver is
omitted from that frame. -/
theorem c10_origin_suppression :
    (∀ (points : List LocSample) (t : ℚ) (c : ℚ × ℚ),
      emitLocation points t = some c → c.1 ≠ 0 ∧ c.2 ≠ 0)
    ∧ (∀ (points : List LocSample) (t : ℚ),
      animateLocation points t = (0, 0) → emitLocation points t = none)
    ∧ (∀ (points : List LocSample) (t : ℚ),
      points ≠ [] →
      List.Chain' (fun a b : LocSample => a.date ≤ b.date) points →
      t = (points.getD (points.length - 1) default).date →
      animateLocation points t = (0, 0) ∧ emitLocation points t = none) := by
  have hb : ∀ (points : List LocSample) (t : ℚ),
      animateLocation points t = (0, 0) → emitLocation points t = none := by
    intro points t h
    rw [emitLocation]
    by_cases hl : points.length < 2
    · simp [hl]
    · simp [hl, h]
  refine ⟨?_, hb, ?_⟩
  · intro points t c h
    rw [emitLocation] at h
    by_cases hl : points.length < 2
    · simp [hl] at h
    · simp only [if_neg hl] at h
      by_cases hc : (animateLocation points t).1 ≠ 0 ∧ (animateLocation points t).2 ≠ 0
      · rw [if_pos hc] at h
        obtain rfl : animateLocation points t = c := by
          exact Option.some.inj h
        exact hc
      · rw [if_neg hc] at h
        exact Option.noConfusion h
  · intro points t h0 hs h
    have ha := animateLocation_at_last h0 hs h
    exact ⟨ha, hb points t ha⟩

/-- Witness for C10: with samples at `t = 5` and `t = 10`, target 10
emits nothing; and a genuinely emitted coordinate has both components
nonzero. -/
theorem c10_witness :
    emitLocation [⟨1,1,5⟩, ⟨2,2,10⟩] 10 = none
    ∧ ((2 : ℚ) ≠ 0 ∧ (3 : ℚ) ≠ 0) := by
  constructor
  · exact (c10_origin_suppression.2.2 [⟨1,1,5⟩, ⟨2,2,10⟩] 10 (by simp)
      (by norm_num [List.chain'_cons]) (by norm_num)).2
  · exact c10_origin_suppression.1 [⟨1,1,0⟩, ⟨3,5,10⟩] 5 (2, 3)
      (by norm_num [emitLocation, animateLocation, bracketScan, lerp])

end ApexLive
